import Mathlib

/-!
Verification of the control engine of the ekg-edu feedback-loop pipeline.

The definitions below are a shallow embedding of the Python sources:
  * `src/workflow/state.py`   — `WorkflowState`, `update_state`, `merge_articles`
  * `src/workflow/nodes.py`   — `validation_node`, `merge_node` fallback,
                                `crawler_node`, `should_continue_or_end`
  * `src/agents/validation_agent.py` — `ValidationAgent.validate` and its
                                sub-score helpers
  * `src/config/settings.py`  — `CONFIDENCE_THRESHOLD`

Machine floats of the source are embedded as exact rationals; Python's
`int()` truncation toward zero is `truncQ`; the external `datetime`
library (parsing `publishedAt` and subtracting from `datetime.now()`) is
abstracted into a parameter `parse : String → Option ℤ` giving the
floor-day difference `(now - published).days`, `none` when parsing or the
subtraction raises (malformed timestamp).
-/

namespace EkgEdu

/-- An article record, as produced by the crawler.  Python articles are
dicts; the fields the core reads are `url` (may be absent: `Option`),
`source`, `publishedAt`, `title`, `description`.  `payload` stands for the
remaining free-form content, letting two articles with equal core fields
differ. -/
structure Article where
  url : Option String
  source : String
  publishedAt : String
  title : String
  description : String
  payload : Nat := 0
  deriving DecidableEq, Repr

/-- The identity key of an article: `article.get("url")` followed by
Python truthiness (`if url:` drops both `None` and `""`). -/
def urlKey (a : Article) : Option String :=
  match a.url with
  | none => none
  | some u => if u = "" then none else some u

/-- The loop of `merge_articles` (src/workflow/state.py lines 163-168):
iterate the incoming batch, appending an article only when its key is
present and not in the accumulated key set, then adding the key to the
set.  `urls` is the key set; appending to the result accumulator is
rendered as consing onto the recursive call. -/
def mergeNew (urls : List String) : List Article → List Article
  | [] => []
  | a :: rest =>
    match urlKey a with
    | none => mergeNew urls rest
    | some u =>
      if u ∈ urls then mergeNew urls rest
      else a :: mergeNew (u :: urls) rest

/-- Embedding of `merge_articles` (src/workflow/state.py lines 138-170): the key set is
seeded with the truthy urls of `existing`, the result starts as a copy of
`existing`, and deduplicated new articles are appended. -/
def merge_articles (existing incoming : List Article) : List Article :=
  existing ++ mergeNew (existing.filterMap urlKey) incoming

/-- Modelled from the spec (and from the claim wording of the merge
contract): the incoming articles that are kept are exactly those whose key
is present, non-empty, and not equal to the key of any existing article
(`eKeys`) or of any earlier-appended incoming article (`appended`). -/
def specSelectAux (eKeys : List String) (appended : List Article) :
    List Article → List Article
  | [] => []
  | a :: rest =>
    match urlKey a with
    | none => specSelectAux eKeys appended rest
    | some u =>
      if u ∈ eKeys ∨ u ∈ appended.filterMap urlKey then
        specSelectAux eKeys appended rest
      else a :: specSelectAux eKeys (appended ++ [a]) rest

/-- Number of distinct identity keys in an article list. -/
def distinctKeyCount (l : List Article) : Nat :=
  (l.filterMap urlKey).dedup.length

/-- The articles field produced by `crawler_node`
(src/workflow/nodes.py lines 117-184): on success the accumulated list is
replaced by `merge_articles(existing, crawled)`; on failure the existing
list is kept, or `[]` together with the critical-error flag when nothing
was ever accumulated. -/
def crawler_node_articles (existing crawled : List Article)
    (fetchOk : Bool) : List Article :=
  if fetchOk then merge_articles existing crawled
  else if existing.isEmpty then [] else existing

/-! ### The confidence evaluator (src/agents/validation_agent.py) -/

/-- A news pack, as produced by the merge agent or the merge fallback.
Python packs are dicts with keys `pack_id`, `event_type`, `summary`,
`relevance_score`, `article_indices`. -/
structure Pack where
  pack_id : String
  event_type : String
  summary : String
  relevance_score : ℚ
  article_indices : List Nat
  deriving DecidableEq, Repr

/-- Python's `pat in s` substring test.  `s.splitOn pat` yields at least
two pieces exactly when `pat` occurs in `s`; the empty pattern is always
contained. -/
def strContains (s pat : String) : Bool :=
  pat = "" || (s.splitOn pat).length ≥ 2

/-- The trusted-source table of `ValidationAgent.__init__`
(src/agents/validation_agent.py lines 64-74), in insertion order. -/
def trusted_sources : List (String × ℚ) :=
  [("reuters", 1), ("bloomberg", 1), ("wall street journal", 1),
   ("financial times", 9/10), ("associated press", 9/10),
   ("cnbc", 4/5), ("marketwatch", 4/5), ("yahoo finance", 7/10),
   ("investing.com", 3/5)]

/-- Trust weight of one article's provenance label
(`_calculate_source_quality` loop body): the first trusted source that is
a case-insensitive substring of the label wins, otherwise 0.5. -/
def sourceScore (source : String) : ℚ :=
  match trusted_sources.find? (fun p => strContains source.toLower p.1) with
  | some p => p.2
  | none => 1/2

/-- Embedding of `ValidationAgent._calculate_source_quality` (lines 182-212): mean
trust weight over all articles, 0 for an empty list. -/
def sourceQuality (articles : List Article) : ℚ :=
  if articles = [] then 0
  else (articles.map (fun a => sourceScore a.source)).sum / articles.length

/-- Embedding of `ValidationAgent._calculate_consistency` (lines 214-238): fixed 0.6
below two packs, otherwise 0.3 · diversity + 0.7 · mean relevance. -/
def consistencyScore (news_packs : List Pack) : ℚ :=
  if news_packs.length < 2 then 3/5
  else
    let diversity : ℚ :=
      ((news_packs.map (fun p => p.event_type)).dedup.length : ℚ) /
        news_packs.length
    let relevance : ℚ :=
      (news_packs.map (fun p => p.relevance_score)).sum / news_packs.length
    diversity * (3/10) + relevance * (7/10)

/-- The recency test of one article (`_calculate_recency` loop body):
parse `publishedAt` and succeed when the floor-day difference from now is
at most 7; a malformed timestamp (parse failure) never counts. -/
def isRecent (parse : String → Option ℤ) (a : Article) : Bool :=
  match parse a.publishedAt with
  | some d => d ≤ 7
  | none => false

/-- The `recent_count` accumulated by `_calculate_recency`. -/
def countRecent (parse : String → Option ℤ) (articles : List Article) : ℕ :=
  articles.countP (isRecent parse)

/-- Embedding of `ValidationAgent._calculate_recency` (lines 240-274): 0 for an empty
list, otherwise `recent_count / len(articles)` — the denominator is the
whole article list. -/
def recencyScore (parse : String → Option ℤ) (articles : List Article) : ℚ :=
  if articles = [] then 0
  else (countRecent parse articles : ℚ) / articles.length

/-- Modelled from the spec (§4.2 Recency, and the C5 claim wording): the
fraction of articles within 7 days where malformed timestamps are
excluded from both the numerator and the denominator. -/
def recencySpecScore (parse : String → Option ℤ)
    (articles : List Article) : ℚ :=
  if articles = [] then 0
  else (countRecent parse articles : ℚ) /
    (articles.countP (fun a => (parse a.publishedAt).isSome))

/-- Python's `int()` truncation toward zero on a rational. -/
def truncQ (q : ℚ) : ℤ :=
  if 0 ≤ q then ⌊q⌋ else ⌈q⌉

/-- The sentiment contribution of `ValidationAgent.validate` (line 118):
`min(abs(overall_sentiment) * 3.33, 10)`. -/
def sentimentContribution (sentiment : ℚ) : ℚ :=
  min (|sentiment| * (333/100)) 10

/-- The composite of `ValidationAgent.validate` (lines 121-126):
`int(source*40 + consistency*30 + recency*20 + sentimentContribution)`. -/
def compositeConfidence (source consistency recency sentiment : ℚ) : ℤ :=
  truncQ (source * 40 + consistency * 30 + recency * 20 +
    sentimentContribution sentiment)

/-- The confidence returned by `ValidationAgent.validate`: the composite
evaluated at the three computed sub-scores and the analysis sentiment. -/
def validateConfidence (parse : String → Option ℤ) (sentiment : ℚ)
    (news_packs : List Pack) (articles : List Article) : ℤ :=
  compositeConfidence (sourceQuality articles) (consistencyScore news_packs)
    (recencyScore parse articles) sentiment

/-! ### Workflow nodes (src/workflow/nodes.py) -/

/-- Embedding of `CONFIDENCE_THRESHOLD` (src/config/settings.py line 28). -/
def CONFIDENCE_THRESHOLD : ℤ := 60

/-- Embedding of `should_continue_or_end` (src/workflow/nodes.py lines 582-656),
keeping the unreachable `iteration > max_iterations` safety branch. -/
def should_continue_or_end (confidence : ℤ) (iteration max_iterations : ℕ)
    (has_critical_error : Bool) : String :=
  if has_critical_error then "end"
  else if confidence ≥ CONFIDENCE_THRESHOLD then "end"
  else if iteration ≥ max_iterations then "end"
  else if iteration > max_iterations then "end"
  else "continue"

/-- One entry of the `errors` log. -/
structure ErrEntry where
  node : String
  iteration : ℕ
  error : String
  fallback : String
  deriving DecidableEq, Repr

/-- One entry of `all_results`: the per-iteration outcome snapshot built
by `validation_node`.  The success branch stores no `has_error` key, which
is embedded as `has_error = false`. -/
structure IterResult where
  iteration : ℕ
  confidence : ℤ
  keywords : List String
  article_count : ℕ
  news_pack_count : ℕ
  has_error : Bool
  deriving DecidableEq, Repr

/-- Whether the `agent.validate` call inside `validation_node` returned a
confidence or raised. -/
inductive ValidateOutcome where
  | ok (confidence : ℤ)
  | failed (msg : String)
  deriving DecidableEq, Repr

/-- The `(best_result, all_results)` update of `validation_node`
(src/workflow/nodes.py lines 326-462).  Three branches: the critical-error
branch records a zeroed error outcome and passes `best_result` through;
the success branch replaces best only when `confidence >
best["confidence"]` (or when no best exists, by Python truthiness of
`not best_result`); the exception branch records a confidence-20 error
outcome and installs it as best only when no best exists. -/
def validation_node (iteration : ℕ) (has_critical_error : Bool)
    (best : Option IterResult) (all : List IterResult)
    (keywords : List String) (articleCount packCount : ℕ)
    (outcome : ValidateOutcome) : Option IterResult × List IterResult :=
  if has_critical_error then
    let result : IterResult := ⟨iteration, 0, keywords, 0, 0, true⟩
    (best, all ++ [result])
  else
    match outcome with
    | .ok conf =>
      let result : IterResult :=
        ⟨iteration, conf, keywords, articleCount, packCount, false⟩
      let best' :=
        match best with
        | none => result
        | some b => if conf > b.confidence then result else b
      (some best', all ++ [result])
    | .failed _ =>
      let result : IterResult :=
        ⟨iteration, 20, keywords, articleCount, packCount, true⟩
      let best' :=
        match best with
        | none => result
        | some b => b
      (some best', all ++ [result])

/-- Python's `f"pack_{idx:03d}"` zero-padding for the indices that occur
here (idx < 1000). -/
def zeroPad3 (n : ℕ) : String :=
  if n < 10 then "00" ++ toString n
  else if n < 100 then "0" ++ toString n
  else toString n

/-- The exception branch of `merge_node` (src/workflow/nodes.py lines
216-247): one trivial pack per article among `articles[:5]`, each with
relevance 0.5 and the index of its single member, plus the appended error
entry. -/
def merge_node_fallback (articles : List Article) (errors : List ErrEntry)
    (iteration : ℕ) (errMsg : String) : List Pack × List ErrEntry :=
  let simple_packs : List Pack :=
    (articles.take 5).enum.map (fun p =>
      { pack_id := "pack_" ++ zeroPad3 p.1
        event_type := "general"
        summary := p.2.title ++ ". " ++ p.2.description.take 200
        relevance_score := 1/2
        article_indices := [p.1] })
  (simple_packs,
   errors ++ [⟨"news_merge", iteration, errMsg, "simple_news_packs"⟩])

/-! ### The state dictionary (src/workflow/state.py) -/

/-- The declared fields of `WorkflowState`
(src/workflow/state.py lines 26-61). -/
inductive StateKey where
  | iteration | max_iterations | iteration_contexts | keywords | articles
  | news_packs | analysis | validation | all_results | best_result
  | should_continue | final_result | errors | has_critical_error
  | start_time | iteration_timestamps
  deriving DecidableEq, Repr, Fintype

/-- The field names as they appear in `WorkflowState.__annotations__`. -/
def stateKeyName : StateKey → String
  | .iteration => "iteration"
  | .max_iterations => "max_iterations"
  | .iteration_contexts => "iteration_contexts"
  | .keywords => "keywords"
  | .articles => "articles"
  | .news_packs => "news_packs"
  | .analysis => "analysis"
  | .validation => "validation"
  | .all_results => "all_results"
  | .best_result => "best_result"
  | .should_continue => "should_continue"
  | .final_result => "final_result"
  | .errors => "errors"
  | .has_critical_error => "has_critical_error"
  | .start_time => "start_time"
  | .iteration_timestamps => "iteration_timestamps"

/-- All declared fields. -/
def stateKeys : List StateKey :=
  [.iteration, .max_iterations, .iteration_contexts, .keywords, .articles,
   .news_packs, .analysis, .validation, .all_results, .best_result,
   .should_continue, .final_result, .errors, .has_critical_error,
   .start_time, .iteration_timestamps]

/-- The membership test `key in WorkflowState.__annotations__`. -/
def keyOfString (s : String) : Option StateKey :=
  stateKeys.find? (fun k => stateKeyName k = s)

/-- Embedding of `update_state` (src/workflow/state.py lines 108-135).  A
`WorkflowState` (a `total=False` `TypedDict`) is a partial map from
declared fields to values; the updates arrive as keyword arguments, i.e.
string-keyed pairs.  The loop sets each declared key on the copy and
raises `KeyError` (here `Except.error`) at the first undeclared key. -/
def update_state {V : Type} (state : StateKey → Option V) :
    List (String × V) → Except String (StateKey → Option V)
  | [] => Except.ok state
  | (k, v) :: rest =>
    match keyOfString k with
    | some sk =>
      update_state (fun k2 => if k2 = sk then some v else state k2) rest
    | none => Except.error ("Invalid state key: " ++ k)

/-- The state that `update_state` is specified to return: each supplied
declared key takes its supplied value, every other field keeps its input
value. -/
def appliedUpdates {V : Type} (state : StateKey → Option V)
    (updates : List (String × V)) : StateKey → Option V :=
  fun sk =>
    match updates.find? (fun p => p.1 = stateKeyName sk) with
    | some p => some p.2
    | none => state sk

/-! ### Basic lemmas about the merge loop -/

/-- Every article kept by the merge loop has a present, non-empty key. -/
theorem mergeNew_key_isSome (urls : List String) (l : List Article) :
    ∀ a ∈ mergeNew urls l, (urlKey a).isSome := by
  induction l generalizing urls with
  | nil => intro a h; simp [mergeNew] at h
  | cons b rest ih =>
    intro a h
    cases hk : urlKey b with
    | none =>
      simp only [mergeNew, hk] at h
      exact ih urls a h
    | some u =>
      simp only [mergeNew, hk] at h
      by_cases hmem : u ∈ urls
      · rw [if_pos hmem] at h; exact ih urls a h
      · rw [if_neg hmem] at h
        rcases List.mem_cons.mp h with rfl | h
        · simp [hk]
        · exact ih (u :: urls) a h

/-- The merge loop returns a sublist of its input (arrival order kept). -/
theorem mergeNew_sublist (urls : List String) (l : List Article) :
    (mergeNew urls l).Sublist l := by
  induction l generalizing urls with
  | nil => simp [mergeNew]
  | cons b rest ih =>
    cases hk : urlKey b with
    | none =>
      simp only [mergeNew, hk]
      exact (ih urls).cons b
    | some u =>
      simp only [mergeNew, hk]
      by_cases hmem : u ∈ urls
      · rw [if_pos hmem]; exact (ih urls).cons b
      · rw [if_neg hmem]; exact (ih (u :: urls)).cons₂ b

/-- Keys produced by the merge loop avoid the initial key set and are
pairwise distinct. -/
theorem mergeNew_keys_fresh_nodup (l : List Article) (urls : List String) :
    (∀ u ∈ (mergeNew urls l).filterMap urlKey, u ∉ urls) ∧
      ((mergeNew urls l).filterMap urlKey).Nodup := by
  induction l generalizing urls with
  | nil => simp [mergeNew]
  | cons b rest ih =>
    cases hk : urlKey b with
    | none =>
      simp only [mergeNew, hk]
      exact ih urls
    | some u =>
      simp only [mergeNew, hk]
      by_cases hmem : u ∈ urls
      · rw [if_pos hmem]; exact ih urls
      · rw [if_neg hmem]
        obtain ⟨ihf, ihn⟩ := ih (u :: urls)
        constructor
        · intro v hv
          rw [List.filterMap_cons, hk] at hv
          rcases List.mem_cons.mp hv with h | h
          · subst h; exact hmem
          · intro hvu; exact ihf v h (List.mem_cons_of_mem u hvu)
        · rw [List.filterMap_cons, hk]
          refine List.nodup_cons.mpr ⟨?_, ihn⟩
          intro hu
          exact ihf u hu (List.mem_cons_self u (urls))

/-- The merge loop agrees with the spec-worded selection whenever the key
set agrees with "keys of existing plus keys of the already-appended new
articles". -/
theorem mergeNew_eq_specSelectAux (l : List Article) (urls eKeys : List String)
    (appended : List Article)
    (hiff : ∀ u, u ∈ urls ↔ u ∈ eKeys ∨ u ∈ appended.filterMap urlKey) :
    mergeNew urls l = specSelectAux eKeys appended l := by
  induction l generalizing urls appended with
  | nil => simp [mergeNew, specSelectAux]
  | cons b rest ih =>
    cases hk : urlKey b with
    | none =>
      simp only [mergeNew, specSelectAux, hk]
      exact ih urls appended hiff
    | some u =>
      simp only [mergeNew, specSelectAux, hk]
      by_cases hmem : u ∈ urls
      · rw [if_pos hmem, if_pos ((hiff u).mp hmem)]
        exact ih urls appended hiff
      · rw [if_neg hmem, if_neg (fun hc => hmem ((hiff u).mpr hc))]
        refine congrArg (b :: ·) (ih (u :: urls) (appended ++ [b]) ?_)
        intro v
        rw [List.filterMap_append]
        simp only [List.mem_cons, List.mem_append, hiff v,
          List.filterMap_cons, hk, List.filterMap_nil, List.mem_singleton]
        tauto

/-- Articles that are all blocked (keyless, or key already in the set)
contribute nothing to the merge loop and leave the key set unchanged. -/
theorem mergeNew_append_blocked (l₁ l₂ : List Article) (urls : List String)
    (hblocked : ∀ a ∈ l₁, urlKey a = none ∨
      ∃ u, urlKey a = some u ∧ u ∈ urls) :
    mergeNew urls (l₁ ++ l₂) = mergeNew urls l₂ := by
  induction l₁ with
  | nil => simp
  | cons b rest ih =>
    have hb := hblocked b (List.mem_cons_self b rest)
    have hrest : ∀ a ∈ rest, urlKey a = none ∨
        ∃ u, urlKey a = some u ∧ u ∈ urls :=
      fun a ha => hblocked a (List.mem_cons_of_mem b ha)
    rcases hb with hk | ⟨u, hk, hu⟩
    · simp only [List.cons_append, mergeNew, hk]
      exact ih hrest
    · simp only [List.cons_append, mergeNew, hk, if_pos hu]
      exact ih hrest

/-- A list whose keys are all present, fresh for the key set, and pairwise
distinct passes through the merge loop unchanged. -/
theorem mergeNew_of_fresh (N : List Article) (urls : List String)
    (hfresh : ∀ a ∈ N, ∃ u, urlKey a = some u ∧ u ∉ urls)
    (hnodup : (N.filterMap urlKey).Nodup) :
    mergeNew urls N = N := by
  induction N generalizing urls with
  | nil => simp [mergeNew]
  | cons b rest ih =>
    obtain ⟨u, hk, hu⟩ := hfresh b (List.mem_cons_self b rest)
    rw [List.filterMap_cons, hk] at hnodup
    obtain ⟨hnotin, hnodup'⟩ := List.nodup_cons.mp hnodup
    simp only [mergeNew, hk, if_neg hu]
    refine congrArg (b :: ·) (ih (u :: urls) ?_ hnodup')
    intro a ha
    obtain ⟨v, hv, hvu⟩ := hfresh a (List.mem_cons_of_mem b ha)
    refine ⟨v, hv, ?_⟩
    intro hc
    rcases List.mem_cons.mp hc with rfl | hc
    · exact hnotin (List.mem_filterMap.mpr ⟨a, ha, hv⟩)
    · exact hvu hc

/-- Re-merging the already-merged list against the same base is a no-op:
`merge_articles A (merge_articles A B) = merge_articles A B`. -/
theorem merge_articles_remerge (A B : List Article) :
    merge_articles A (merge_articles A B) = merge_articles A B := by
  unfold merge_articles
  set K := A.filterMap urlKey with hK
  set N := mergeNew K B with hN
  have h1 : mergeNew K (A ++ N) = mergeNew K N := by
    refine mergeNew_append_blocked A N K ?_
    intro a ha
    cases hk : urlKey a with
    | none => exact Or.inl rfl
    | some u =>
      exact Or.inr ⟨u, rfl, hK ▸ List.mem_filterMap.mpr ⟨a, ha, hk⟩⟩
  have h2 : mergeNew K N = N := by
    refine mergeNew_of_fresh N K ?_ (mergeNew_keys_fresh_nodup B K).2
    intro a ha
    have hs := mergeNew_key_isSome K B a ha
    obtain ⟨u, hk⟩ := Option.isSome_iff_exists.mp hs
    refine ⟨u, hk, ?_⟩
    exact (mergeNew_keys_fresh_nodup B K).1 u
      (List.mem_filterMap.mpr ⟨a, ha, hk⟩)
  rw [h1, h2]

/-! ### Claim theorems about the merge -/

/-- C4: `merge_articles existing incoming` is all of `existing` first in
unchanged order, followed by exactly those incoming articles whose key is
present, non-empty, and not equal to the key of any existing article or of
any earlier-appended incoming article (the spec-worded `specSelectAux`),
in arrival order (a sublist of `incoming`); every article with an empty or
missing key is dropped from the appended part. -/
theorem merge_articles_characterization (existing incoming : List Article) :
    merge_articles existing incoming =
      existing ++ specSelectAux (existing.filterMap urlKey) [] incoming ∧
    (specSelectAux (existing.filterMap urlKey) [] incoming).Sublist incoming ∧
    ∀ a ∈ specSelectAux (existing.filterMap urlKey) [] incoming,
      (urlKey a).isSome := by
  have heq : mergeNew (existing.filterMap urlKey) incoming =
      specSelectAux (existing.filterMap urlKey) [] incoming := by
    refine mergeNew_eq_specSelectAux incoming _ _ [] ?_
    intro u; simp
  refine ⟨by rw [merge_articles, heq], ?_, ?_⟩
  · rw [← heq]; exact mergeNew_sublist _ incoming
  · rw [← heq]; exact mergeNew_key_isSome _ incoming

/-- C6: if the accumulated collection has pairwise-distinct non-empty
keys, so does `merge_articles existing incoming`, and so does the
collection `crawler_node` installs in every branch. -/
theorem merge_preserves_key_nodup (existing incoming crawled : List Article)
    (fetchOk : Bool)
    (h : (existing.filterMap urlKey).Nodup) :
    ((merge_articles existing incoming).filterMap urlKey).Nodup ∧
    ((crawler_node_articles existing crawled fetchOk).filterMap urlKey).Nodup := by
  have hmerge : ∀ inc : List Article,
      ((merge_articles existing inc).filterMap urlKey).Nodup := by
    intro inc
    rw [merge_articles, List.filterMap_append]
    refine List.Nodup.append h (mergeNew_keys_fresh_nodup inc _).2 ?_
    intro u hu hu'
    exact (mergeNew_keys_fresh_nodup inc _).1 u hu' hu
  refine ⟨hmerge incoming, ?_⟩
  unfold crawler_node_articles
  by_cases hf : fetchOk
  · rw [if_pos hf]; exact hmerge crawled
  · rw [if_neg hf]
    by_cases he : existing.isEmpty
    · simp [he]
    · simpa [he] using h

/-- Witness for C6 at concrete inputs. -/
theorem merge_preserves_key_nodup_witness :
    (([⟨some "a", "s", "", "", "", 0⟩] : List Article).filterMap urlKey).Nodup ∧
    ((merge_articles [⟨some "a", "s", "", "", "", 0⟩]
        [⟨some "a", "t", "", "", "", 1⟩, ⟨some "b", "t", "", "", "", 2⟩]).filterMap
      urlKey).Nodup ∧
    ((crawler_node_articles [⟨some "a", "s", "", "", "", 0⟩]
        [⟨some "b", "t", "", "", "", 2⟩] true).filterMap urlKey).Nodup := by
  have h := merge_preserves_key_nodup [⟨some "a", "s", "", "", "", 0⟩]
    [⟨some "a", "t", "", "", "", 1⟩, ⟨some "b", "t", "", "", "", 2⟩]
    [⟨some "b", "t", "", "", "", 2⟩] true (by decide)
  exact ⟨by decide, h.1, h.2⟩

/-- C7: re-merging the same batch adds no new keys: the distinct-key count
of `merge_articles A (merge_articles A B)` equals that of
`merge_articles A B`. -/
theorem remerge_distinct_key_count (A B : List Article) :
    distinctKeyCount (merge_articles A (merge_articles A B)) =
      distinctKeyCount (merge_articles A B) := by
  rw [merge_articles_remerge]

/-! ### Termination decision -/

/-- C1: `should_continue_or_end` returns `"end"` iff the critical-error
flag is set, or the confidence reaches the threshold (60), or the
iteration count reaches `max_iterations`; otherwise it returns
`"continue"`.  The binary outcome makes the priority order observable
only through this disjunction: a set flag ends the run for every
confidence and budget, and a reached threshold ends it for every
budget. -/
theorem should_continue_or_end_iff (confidence : ℤ)
    (iteration max_iterations : ℕ) (e : Bool) :
    CONFIDENCE_THRESHOLD = 60 ∧
    (should_continue_or_end confidence iteration max_iterations e = "end" ↔
      (e = true ∨ CONFIDENCE_THRESHOLD ≤ confidence ∨
        max_iterations ≤ iteration)) ∧
    (should_continue_or_end confidence iteration max_iterations e =
        "continue" ↔
      ¬(e = true ∨ CONFIDENCE_THRESHOLD ≤ confidence ∨
        max_iterations ≤ iteration)) := by
  refine ⟨rfl, ?_, ?_⟩ <;>
  · unfold should_continue_or_end
    split_ifs with h1 h2 h3 h4 <;> simp_all
    omega

/-! ### Result tracker (`validation_node`) -/

/-- C3 counterexample: with the critical-error flag set and no best yet,
`validation_node` records an error-flagged outcome into the history but
leaves `best_result` at `none` — the critical-error outcome does not
become best, contradicting the claim that the first recorded outcome
becomes best unconditionally including the critical-error outcome. -/
theorem validation_node_critical_counterexample :
    (validation_node 1 true none [] [] 0 0 (.ok 50)).1 = none ∧
    (validation_node 1 true none [] [] 0 0 (.ok 50)).2 =
      [⟨1, 0, [], 0, 0, true⟩] := by
  constructor <;> rfl

/-- C3 (amended): the tracked best is replaced only on strictly greater
confidence (equal confidences `[50, 50]` keep iteration 1 as best); with
no best yet, the first recorded outcome becomes best unconditionally in
the success and validation-fallback branches; the critical-error branch
records its outcome in the history but passes `best_result` through
unchanged. -/
theorem validation_node_best_update (iteration : ℕ)
    (best : Option IterResult) (all : List IterResult)
    (keywords : List String) (articleCount packCount : ℕ) (conf : ℤ)
    (msg : String) (o : ValidateOutcome) :
    (validation_node iteration true best all keywords articleCount packCount
        o =
      (best, all ++ [⟨iteration, 0, keywords, 0, 0, true⟩])) ∧
    (validation_node iteration false none all keywords articleCount packCount
        (.ok conf) =
      (some ⟨iteration, conf, keywords, articleCount, packCount, false⟩,
       all ++ [⟨iteration, conf, keywords, articleCount, packCount,
         false⟩])) ∧
    (∀ b : IterResult,
      (validation_node iteration false (some b) all keywords articleCount
          packCount (.ok conf)).1 =
        some (if b.confidence < conf then
          ⟨iteration, conf, keywords, articleCount, packCount, false⟩
        else b)) ∧
    ((validation_node iteration false best all keywords articleCount
        packCount (.failed msg)).1 =
      some (best.getD
        ⟨iteration, 20, keywords, articleCount, packCount, true⟩)) ∧
    ((validation_node 2 false
        (validation_node 1 false none [] [] 0 0 (.ok 50)).1
        (validation_node 1 false none [] [] 0 0 (.ok 50)).2
        [] 0 0 (.ok 50)).1 = some ⟨1, 50, [], 0, 0, false⟩) := by
  refine ⟨rfl, rfl, ?_, ?_, by decide⟩
  · intro b
    simp only [validation_node, Bool.false_eq_true, if_false, gt_iff_lt]
  · cases best <;> rfl

/-! ### Group-stage fallback (`merge_node`) -/

/-- C8 counterexample: with six accumulated articles the fallback builds
only five packs, refuting "one pack per accumulated article". -/
theorem merge_node_fallback_counterexample :
    ((merge_node_fallback
        (List.replicate 6 (⟨none, "", "", "", "", 0⟩ : Article)) [] 1
        "boom").1).length = 5 ∧
    (List.replicate 6 (⟨none, "", "", "", "", 0⟩ : Article)).length = 6 := by
  constructor <;> rfl

/-- C8 (amended): the `merge_node` fallback builds one trivial pack per
article among the first five accumulated articles (at most 5 packs; one
per article whenever at most five exist), each pack carrying relevance
weight 0.5, event type "general" and the index of its single member, and
appends an error entry with stage name, iteration number, error
description and fallback name. -/
theorem merge_node_fallback_spec (articles : List Article)
    (errors : List ErrEntry) (iteration : ℕ) (errMsg : String) :
    (merge_node_fallback articles errors iteration errMsg).2 =
      errors ++ [⟨"news_merge", iteration, errMsg, "simple_news_packs"⟩] ∧
    (merge_node_fallback articles errors iteration errMsg).1.length =
      min 5 articles.length ∧
    (merge_node_fallback articles errors iteration errMsg).1.map
        (fun p => p.relevance_score) =
      List.replicate (min 5 articles.length) (1/2) ∧
    (merge_node_fallback articles errors iteration errMsg).1.map
        (fun p => p.event_type) =
      List.replicate (min 5 articles.length) "general" ∧
    (merge_node_fallback articles errors iteration errMsg).1.map
        (fun p => p.article_indices) =
      (List.range (min 5 articles.length)).map (fun i => [i]) := by
  refine ⟨rfl, ?_, ?_, ?_, ?_⟩
  · simp [merge_node_fallback]
  · simp [merge_node_fallback, List.map_map, Function.comp_def]
  · simp [merge_node_fallback, List.map_map, Function.comp_def]
  · simp only [merge_node_fallback, List.map_map]
    rw [show ((fun p : Pack => p.article_indices) ∘
        (fun p : ℕ × Article =>
          ({ pack_id := "pack_" ++ zeroPad3 p.1
             event_type := "general"
             summary := p.2.title ++ ". " ++ p.2.description.take 200
             relevance_score := 1/2
             article_indices := [p.1] } : Pack))) =
      ((fun i => [i]) ∘ (Prod.fst : ℕ × Article → ℕ)) from rfl]
    rw [← List.map_map, List.enum_map_fst, List.length_take]

/-! ### Recency sub-score claims -/

/-- C5 counterexample: one parsable-and-recent article together with one
malformed article yields code recency 1/2 — the malformed article stays in
the denominator — while the claimed both-sides exclusion
(`recencySpecScore`) yields 1. -/
theorem recency_denominator_counterexample :
    recencyScore (fun s => if s = "d0" then some 0 else none)
      [⟨none, "", "d0", "", "", 0⟩, ⟨none, "", "bad", "", "", 0⟩] = 1/2 ∧
    recencySpecScore (fun s => if s = "d0" then some 0 else none)
      [⟨none, "", "d0", "", "", 0⟩, ⟨none, "", "bad", "", "", 0⟩] = 1 ∧
    (1 : ℚ)/2 ≠ 1 := by
  refine ⟨by rfl, ?_, by norm_num⟩
  have hb : ¬(("bad" : String) = "d0") := by decide
  rw [recencySpecScore, if_neg (by simp)]
  norm_num [countRecent, isRecent, List.countP_cons, List.countP_nil, hb]

/-- C5 (amended): the recency sub-score equals the number of articles
whose timestamp parses and lies within 7 days, divided by the total
number of articles — malformed timestamps are excluded from the numerator
only and still count in the denominator; an empty list yields 0. -/
theorem recency_malformed_numerator_only (parse : String → Option ℤ)
    (a : Article) (l : List Article) (hmal : parse a.publishedAt = none) :
    recencyScore parse [] = 0 ∧
    countRecent parse (a :: l) = countRecent parse l ∧
    recencyScore parse (a :: l) =
      (countRecent parse l : ℚ) / (l.length + 1) := by
  have hcount : countRecent parse (a :: l) = countRecent parse l := by
    simp [countRecent, List.countP_cons, isRecent, hmal]
  refine ⟨rfl, hcount, ?_⟩
  rw [recencyScore, if_neg (by simp)]
  rw [hcount, List.length_cons]
  push_cast
  ring_nf

/-- Witness for C5's amended theorem at concrete inputs. -/
theorem recency_malformed_numerator_only_witness :
    (fun s => if s = "d0" then some (0:ℤ) else none) "bad" = none ∧
    (recencyScore (fun s => if s = "d0" then some (0:ℤ) else none) [] = 0 ∧
     countRecent (fun s => if s = "d0" then some (0:ℤ) else none)
        (⟨none, "", "bad", "", "", 0⟩ :: [⟨none, "", "d0", "", "", 0⟩]) =
       countRecent (fun s => if s = "d0" then some (0:ℤ) else none)
         [⟨none, "", "d0", "", "", 0⟩] ∧
     recencyScore (fun s => if s = "d0" then some (0:ℤ) else none)
        (⟨none, "", "bad", "", "", 0⟩ :: [⟨none, "", "d0", "", "", 0⟩]) =
       (countRecent (fun s => if s = "d0" then some (0:ℤ) else none)
          [⟨none, "", "d0", "", "", 0⟩] : ℚ) /
         (([⟨none, "", "d0", "", "", 0⟩] : List Article).length + 1)) :=
  ⟨rfl, recency_malformed_numerator_only _ _ _ rfl⟩

/-- C9: an article whose timestamp parses to a day difference of zero or
less (publication at or after evaluation time) satisfies the
`days_ago <= 7` test, is counted in the numerator as recent, and never
lowers the recency sub-score. -/
theorem recency_future_dated (parse : String → Option ℤ) (a : Article)
    (l : List Article) (d : ℤ) (hparse : parse a.publishedAt = some d)
    (hfut : d ≤ 0) :
    isRecent parse a = true ∧
    countRecent parse (a :: l) = countRecent parse l + 1 ∧
    recencyScore parse l ≤ recencyScore parse (a :: l) := by
  have hrec : isRecent parse a = true := by
    simp only [isRecent, hparse, decide_eq_true_eq]
    omega
  have hcount : countRecent parse (a :: l) = countRecent parse l + 1 := by
    simp [countRecent, List.countP_cons, hrec]
  refine ⟨hrec, hcount, ?_⟩
  rcases eq_or_ne l [] with rfl | hne
  · rw [recencyScore, if_pos rfl, recencyScore, if_neg (by simp)]
    simp [hcount]
    positivity
  · rw [recencyScore, if_neg hne, recencyScore, if_neg (by simp)]
    rw [hcount, List.length_cons]
    have hlen : 0 < (l.length : ℚ) := by
      have : 0 < l.length := List.length_pos.mpr hne
      exact_mod_cast this
    have hle : (countRecent parse l : ℚ) ≤ (l.length : ℚ) := by
      exact_mod_cast List.countP_le_length (isRecent parse)
    push_cast
    rw [div_le_div_iff₀ hlen (by linarith)]
    nlinarith [hle]

/-- Witness for C9 at concrete inputs. -/
theorem recency_future_dated_witness :
    (fun s => if s = "f" then some (-2 : ℤ) else none) "f" = some (-2) ∧
    (-2 : ℤ) ≤ 0 ∧
    (isRecent (fun s => if s = "f" then some (-2 : ℤ) else none)
        ⟨none, "", "f", "", "", 0⟩ = true ∧
     countRecent (fun s => if s = "f" then some (-2 : ℤ) else none)
        (⟨none, "", "f", "", "", 0⟩ :: []) =
       countRecent (fun s => if s = "f" then some (-2 : ℤ) else none) [] + 1 ∧
     recencyScore (fun s => if s = "f" then some (-2 : ℤ) else none) [] ≤
       recencyScore (fun s => if s = "f" then some (-2 : ℤ) else none)
         (⟨none, "", "f", "", "", 0⟩ :: [])) :=
  ⟨rfl, by norm_num, recency_future_dated _ _ _ (-2) rfl (by norm_num)⟩

/-! ### Confidence evaluator bounds (C2) -/

/-- Every trust weight of the table lies in [0,1]. -/
theorem trusted_sources_weight_bounds :
    ∀ p ∈ trusted_sources, 0 ≤ p.2 ∧ p.2 ≤ 1 := by
  intro p hp
  fin_cases hp <;> norm_num

/-- Per-article trust weight is in [0,1]. -/
theorem sourceScore_bounds (s : String) :
    0 ≤ sourceScore s ∧ sourceScore s ≤ 1 := by
  rw [sourceScore]
  cases hf : trusted_sources.find? (fun p => strContains s.toLower p.1) with
  | none => norm_num
  | some p => exact trusted_sources_weight_bounds p (List.mem_of_find?_eq_some hf)

/-- Sum of a list of rationals each in [0,1] lies in [0, length]. -/
theorem list_sum_bounds (l : List ℚ) (h : ∀ x ∈ l, 0 ≤ x ∧ x ≤ 1) :
    0 ≤ l.sum ∧ l.sum ≤ l.length := by
  induction l with
  | nil => simp
  | cons x xs ih =>
    obtain ⟨hx0, hx1⟩ := h x (List.mem_cons_self x xs)
    obtain ⟨hs0, hs1⟩ := ih (fun y hy => h y (List.mem_cons_of_mem x hy))
    simp only [List.sum_cons, List.length_cons]
    push_cast
    constructor <;> linarith

/-- The mean of a nonempty list of rationals each in [0,1] is in [0,1]. -/
theorem list_mean_bounds (l : List ℚ) (hne : l ≠ [])
    (h : ∀ x ∈ l, 0 ≤ x ∧ x ≤ 1) :
    0 ≤ l.sum / l.length ∧ l.sum / l.length ≤ 1 := by
  have hlen : 0 < (l.length : ℚ) := by
    have : 0 < l.length := List.length_pos.mpr hne
    exact_mod_cast this
  obtain ⟨h0, h1⟩ := list_sum_bounds l h
  exact ⟨div_nonneg h0 hlen.le, (div_le_one hlen).mpr h1⟩

/-- The source-quality sub-score is always in [0,1]. -/
theorem sourceQuality_bounds (articles : List Article) :
    0 ≤ sourceQuality articles ∧ sourceQuality articles ≤ 1 := by
  rw [sourceQuality]
  rcases eq_or_ne articles [] with rfl | hne
  · norm_num
  · rw [if_neg hne]
    have hmap : (articles.map (fun a => sourceScore a.source)).length =
        articles.length := List.length_map _ _
    have := list_mean_bounds (articles.map (fun a => sourceScore a.source))
      (by simpa using hne)
      (by
        intro x hx
        obtain ⟨a, _, rfl⟩ := List.mem_map.mp hx
        exact sourceScore_bounds a.source)
    rwa [hmap] at this

/-- The consistency sub-score is in [0,1] whenever every pack relevance
weight is in [0,1]. -/
theorem consistencyScore_bounds (news_packs : List Pack)
    (hrel : ∀ p ∈ news_packs, 0 ≤ p.relevance_score ∧ p.relevance_score ≤ 1) :
    0 ≤ consistencyScore news_packs ∧ consistencyScore news_packs ≤ 1 := by
  rw [consistencyScore]
  by_cases hlt : news_packs.length < 2
  · rw [if_pos hlt]; norm_num
  · rw [if_neg hlt]
    have hne : news_packs ≠ [] := by
      intro h; rw [h] at hlt; exact hlt (by norm_num)
    have hlen : 0 < (news_packs.length : ℚ) := by
      have : 0 < news_packs.length := List.length_pos.mpr hne
      exact_mod_cast this
    have hdiv0 : 0 ≤ ((news_packs.map (fun p => p.event_type)).dedup.length : ℚ) /
        news_packs.length := by positivity
    have hdiv1 : ((news_packs.map (fun p => p.event_type)).dedup.length : ℚ) /
        news_packs.length ≤ 1 := by
      rw [div_le_one hlen]
      have hsub : (news_packs.map (fun p => p.event_type)).dedup.length ≤
          news_packs.length := by
        calc (news_packs.map (fun p => p.event_type)).dedup.length
            ≤ (news_packs.map (fun p => p.event_type)).length :=
              (List.dedup_sublist _).length_le
          _ = news_packs.length := List.length_map _ _
      exact_mod_cast hsub
    have hmap : (news_packs.map (fun p => p.relevance_score)).length =
        news_packs.length := List.length_map _ _
    have hrel' := list_mean_bounds (news_packs.map (fun p => p.relevance_score))
      (by simpa using hne)
      (by
        intro x hx
        obtain ⟨p, hp, rfl⟩ := List.mem_map.mp hx
        exact hrel p hp)
    rw [hmap] at hrel'
    obtain ⟨hr0, hr1⟩ := hrel'
    constructor <;> [positivity; nlinarith]

/-- The recency sub-score is always in [0,1]. -/
theorem recencyScore_bounds (parse : String → Option ℤ)
    (articles : List Article) :
    0 ≤ recencyScore parse articles ∧ recencyScore parse articles ≤ 1 := by
  rw [recencyScore]
  rcases eq_or_ne articles [] with rfl | hne
  · norm_num
  · rw [if_neg hne]
    have hlen : 0 < (articles.length : ℚ) := by
      have : 0 < articles.length := List.length_pos.mpr hne
      exact_mod_cast this
    have hcount : (countRecent parse articles : ℚ) ≤ articles.length := by
      exact_mod_cast List.countP_le_length (isRecent parse)
    exact ⟨by positivity, (div_le_one hlen).mpr hcount⟩

/-- The sentiment contribution is always in [0,10]. -/
theorem sentimentContribution_bounds (sentiment : ℚ) :
    0 ≤ sentimentContribution sentiment ∧
      sentimentContribution sentiment ≤ 10 := by
  rw [sentimentContribution]
  constructor
  · exact le_min (by positivity) (by norm_num)
  · exact min_le_right _ _

/-- C2: with every pack relevance weight in [0,1] and |sentiment| ≤ 3 the
confidence of `ValidationAgent.validate` equals the claimed
floor-truncate-clamp composite (the clamp is a no-op), is an integer in
[0,100], and the claim's worked example — sub-scores 0.8 / 0.7 / 0.5 and
sentiment magnitude 2.4 — evaluates to 70. -/
theorem validate_confidence_formula (parse : String → Option ℤ)
    (articles : List Article) (news_packs : List Pack) (sentiment : ℚ)
    (hrel : ∀ p ∈ news_packs, 0 ≤ p.relevance_score ∧ p.relevance_score ≤ 1)
    (_hs : |sentiment| ≤ 3) :
    validateConfidence parse sentiment news_packs articles =
      max 0 (min 100 ⌊sourceQuality articles * 40 +
        consistencyScore news_packs * 30 +
        recencyScore parse articles * 20 +
        min (|sentiment| * (333/100)) 10⌋) ∧
    0 ≤ validateConfidence parse sentiment news_packs articles ∧
    validateConfidence parse sentiment news_packs articles ≤ 100 ∧
    compositeConfidence (4/5) (7/10) (1/2) (12/5) = 70 := by
  obtain ⟨hs0, hs1⟩ := sourceQuality_bounds articles
  obtain ⟨hc0, hc1⟩ := consistencyScore_bounds news_packs hrel
  obtain ⟨hr0, hr1⟩ := recencyScore_bounds parse articles
  obtain ⟨hm0, hm1⟩ := sentimentContribution_bounds sentiment
  set q : ℚ := sourceQuality articles * 40 + consistencyScore news_packs * 30 +
    recencyScore parse articles * 20 + sentimentContribution sentiment with hq
  have hq0 : 0 ≤ q := by rw [hq]; nlinarith
  have hq100 : q ≤ 100 := by rw [hq]; nlinarith
  have hval : validateConfidence parse sentiment news_packs articles = ⌊q⌋ := by
    rw [validateConfidence, compositeConfidence, truncQ, if_pos hq0, hq]
  have hfl0 : (0 : ℤ) ≤ ⌊q⌋ := by positivity
  have hfl100 : ⌊q⌋ ≤ 100 := by
    have : (⌊q⌋ : ℚ) ≤ 100 := le_trans (Int.floor_le q) hq100
    exact_mod_cast this
  refine ⟨?_, ?_, ?_, ?_⟩
  · rw [hval]
    have hqe : sourceQuality articles * 40 + consistencyScore news_packs * 30 +
        recencyScore parse articles * 20 +
        min (|sentiment| * (333/100)) 10 = q := by
      rw [hq, sentimentContribution]
    rw [hqe, min_eq_right hfl100, max_eq_right hfl0]
  · rw [hval]; exact hfl0
  · rw [hval]; exact hfl100
  · rw [compositeConfidence, sentimentContribution]
    have habs : |(12/5 : ℚ)| = 12/5 := abs_of_nonneg (by norm_num)
    rw [habs]
    have hmin : min ((12/5 : ℚ) * (333/100)) 10 = 999/125 := by
      rw [min_eq_left (by norm_num)]
      norm_num
    rw [hmin, truncQ, if_pos (by norm_num)]
    have : ((4:ℚ)/5 * 40 + 7/10 * 30 + 1/2 * 20 + 999/125) = 8874/125 := by
      norm_num
    rw [this]
    have : ⌊(8874/125 : ℚ)⌋ = 70 := by
      apply Int.floor_eq_iff.mpr
      constructor <;> norm_num
    rw [this]

/-- Witness for C2 at concrete inputs. -/
theorem validate_confidence_formula_witness :
    (∀ p ∈ ([] : List Pack), 0 ≤ p.relevance_score ∧ p.relevance_score ≤ 1) ∧
    |(0 : ℚ)| ≤ 3 ∧
    (validateConfidence (fun _ => none) 0 [] [] =
      max 0 (min 100 ⌊sourceQuality [] * 40 + consistencyScore [] * 30 +
        recencyScore (fun _ => none) [] * 20 +
        min (|(0 : ℚ)| * (333/100)) 10⌋) ∧
     0 ≤ validateConfidence (fun _ => none) 0 [] [] ∧
     validateConfidence (fun _ => none) 0 [] [] ≤ 100 ∧
     compositeConfidence (4/5) (7/10) (1/2) (12/5) = 70) :=
  ⟨by simp, by norm_num,
   validate_confidence_formula (fun _ => none) [] [] 0 (by simp) (by norm_num)⟩

/-! ### State-update helper (C10) -/

/-- Field names are pairwise distinct, so a name determines the field. -/
theorem stateKeyName_injective :
    ∀ a b : StateKey, stateKeyName a = stateKeyName b → a = b := by decide

/-- A successful annotation lookup returns a field with the looked-up
name. -/
theorem keyOfString_name (k : String) (sk : StateKey)
    (h : keyOfString k = some sk) : stateKeyName sk = k := by
  have := List.find?_some h
  simpa using this

/-- When every supplied key is declared and the keys are distinct,
`update_state` succeeds and produces exactly the claimed field map. -/
theorem update_state_ok {V : Type} (state : StateKey → Option V)
    (updates : List (String × V))
    (hvalid : ∀ p ∈ updates, (keyOfString p.1).isSome)
    (hnodup : (updates.map Prod.fst).Nodup) :
    update_state state updates = Except.ok (appliedUpdates state updates) := by
  induction updates generalizing state with
  | nil =>
    have h : appliedUpdates state [] = state := by
      funext sk; simp [appliedUpdates]
    rw [update_state, h]
  | cons kv rest ih =>
    obtain ⟨k, v⟩ := kv
    have hk := hvalid (k, v) (List.mem_cons_self _ _)
    obtain ⟨sk₀, hsk⟩ := Option.isSome_iff_exists.mp hk
    have hname : stateKeyName sk₀ = k := keyOfString_name k sk₀ hsk
    have hnodup2 : (k :: rest.map Prod.fst).Nodup := by
      rw [List.map_cons] at hnodup; exact hnodup
    obtain ⟨hknotin, hnodup'⟩ := List.nodup_cons.mp hnodup2
    have hvalid' : ∀ p ∈ rest, (keyOfString p.1).isSome :=
      fun p hp => hvalid p (List.mem_cons_of_mem _ hp)
    simp only [update_state, hsk]
    rw [ih _ hvalid' hnodup']
    congr 1
    funext sk
    simp only [appliedUpdates, List.find?_cons]
    by_cases hkk : k = stateKeyName sk
    · have hsk0 : sk = sk₀ := stateKeyName_injective _ _ (by rw [hname, hkk])
      subst hsk0
      have hdec : decide (k = stateKeyName sk) = true := by
        simp [hkk]
      have hfind : rest.find? (fun p => p.1 = stateKeyName sk) = none := by
        rw [List.find?_eq_none]
        intro p hp
        simp only [decide_eq_true_eq]
        intro hpk
        refine hknotin ?_
        have hmem : p.1 ∈ rest.map Prod.fst := List.mem_map_of_mem Prod.fst hp
        rwa [hpk, ← hkk] at hmem
      simp [hdec, hfind]
    · have hdec : decide (k = stateKeyName sk) = false := by
        simp [hkk]
      simp only [hdec]
      cases hfind : rest.find? (fun p => p.1 = stateKeyName sk) with
      | some p => simp [hfind]
      | none =>
        have hsk0 : sk ≠ sk₀ := fun h => hkk (by rw [h, hname])
        simp [hfind, hsk0]

/-- An undeclared key makes `update_state` fail. -/
theorem update_state_err {V : Type} (state : StateKey → Option V)
    (updates : List (String × V))
    (hbad : ∃ p ∈ updates, keyOfString p.1 = none) :
    ∃ msg, update_state state updates = Except.error msg := by
  induction updates generalizing state with
  | nil => simp at hbad
  | cons kv rest ih =>
    obtain ⟨k, v⟩ := kv
    cases hsk : keyOfString k with
    | none =>
      exact ⟨"Invalid state key: " ++ k, by simp [update_state, hsk]⟩
    | some sk₀ =>
      have hrest : ∃ p ∈ rest, keyOfString p.1 = none := by
        rcases hbad with ⟨p, hp, hpn⟩
        rcases List.mem_cons.mp hp with rfl | hp'
        · rw [hsk] at hpn; cases hpn
        · exact ⟨p, hp', hpn⟩
      obtain ⟨msg, hmsg⟩ := ih _ hrest
      exact ⟨msg, by simp only [update_state, hsk]; exact hmsg⟩

/-- C10: `update_state` returns a state in which each supplied declared
key takes its supplied value and every other field is unchanged (the
input state itself is untouched — the embedding is pure, matching the
source's dict copy), and any undeclared supplied key makes it raise
`KeyError` (embedded as `Except.error`). -/
theorem update_state_spec {V : Type} (state : StateKey → Option V)
    (updates : List (String × V)) :
    ((∀ p ∈ updates, (keyOfString p.1).isSome) →
      (updates.map Prod.fst).Nodup →
      update_state state updates =
        Except.ok (appliedUpdates state updates)) ∧
    ((∃ p ∈ updates, keyOfString p.1 = none) →
      ∃ msg, update_state state updates = Except.error msg) :=
  ⟨fun h1 h2 => update_state_ok state updates h1 h2,
   fun h => update_state_err state updates h⟩

/-- Witness for C10 at concrete inputs. -/
theorem update_state_spec_witness :
    (∀ p ∈ [("iteration", (2 : ℕ))], (keyOfString p.1).isSome) ∧
    ([("iteration", (2 : ℕ))].map Prod.fst).Nodup ∧
    update_state (fun _ => some 0) [("iteration", (2 : ℕ))] =
      Except.ok (appliedUpdates (fun _ => some 0)
        [("iteration", (2 : ℕ))]) ∧
    (∃ p ∈ [("bogus", (1 : ℕ))], keyOfString p.1 = none) ∧
    (∃ msg, update_state (fun _ : StateKey => some (0 : ℕ))
        [("bogus", (1 : ℕ))] = Except.error msg) :=
  ⟨by decide, by decide,
   (update_state_spec _ _).1 (by decide) (by decide),
   by decide,
   (update_state_spec (fun _ : StateKey => some (0 : ℕ)) _).2 (by decide)⟩

end EkgEdu
